import Mathlib

/-!
Verification development for the CO2 dashboard data pipeline
(`streamlit_app.py`).  The pipeline is shallowly embedded: a fetched
document is a list of text lines, machine floats are modelled as exact
rationals (every value analysed here is a short decimal literal, on which
the float pipeline and the rational pipeline agree), and fallible steps
return `Except`.  `pandas`-level behaviour (CSV splitting, column
cleaning, sentinel and future-date filtering) is translated operation by
operation from the source; behaviour that lives in external libraries and
not in the repository (the `scipy` Savitzky-Golay smoother) is modelled
from the specification and marked as such on the definition.
-/

namespace Vips

/-- Calendar date at day resolution, as produced by `pd.to_datetime`. -/
structure Date where
  y : ℕ
  m : ℕ
  d : ℕ
deriving DecidableEq, Repr

/-- Linearisation of a calendar date; on valid dates (`m ≤ 12`, `d ≤ 31`)
it is order-isomorphic to chronological order, which is how pandas
compares `datetime` values. -/
def dateKey (a : Date) : ℕ := a.y * 10000 + a.m * 100 + a.d

/-- A row of the canonical table: `date` and `value` columns
(`load_public_data` keeps exactly these two). -/
structure Row where
  date : Date
  value : ℚ
deriving DecidableEq, Repr

/-! ## Character-level utilities

The source works on `response.text`: lines, comma fields, stripping and
quote removal.  These are embedded as plain recursive functions on
`List Char` so that their properties can be proved by induction. -/

/-- The ten decimal digit characters. -/
def digitList : List Char := ['0', '1', '2', '3', '4', '5', '6', '7', '8', '9']

/-- Digit character for `n % 10`. -/
def digitChar (n : ℕ) : Char := digitList.getD (n % 10) '0'

/-- Test for a decimal digit character. -/
def isDigitC (c : Char) : Bool := 47 < c.toNat && c.toNat < 58

/-- Numeric value of a digit character. -/
def digitVal (c : Char) : ℕ := c.toNat - 48

/-- Split a character list on a separator, like `str.split(sep)` /
the comma splitting performed by `pd.read_csv`. -/
def splitOnChar (sep : Char) : List Char → List (List Char)
  | [] => [[]]
  | c :: cs =>
    let r := splitOnChar sep cs
    if c = sep then [] :: r
    else
      match r with
      | [] => [[c]]
      | g :: gs => (c :: g) :: gs

/-- Strip leading and trailing whitespace, like Python `str.strip()`. -/
def trimChars (cs : List Char) : List Char :=
  ((cs.dropWhile Char.isWhitespace).reverse.dropWhile Char.isWhitespace).reverse

/-- Does `hay` start with `needle`? -/
def seqStarts : List Char → List Char → Bool
  | [], _ => true
  | _ :: _, [] => false
  | a :: as, b :: bs => a = b && seqStarts as bs

/-- Does `hay` contain `needle` as a contiguous subsequence?  Embeds the
Python substring test `needle in line`. -/
def containsSeq (needle : List Char) : List Char → Bool
  | [] => needle.isEmpty
  | c :: rest => seqStarts needle (c :: rest) || containsSeq needle rest

/-! ## Numeric and date parsing

`pd.read_csv` / `pd.to_numeric` / `pd.to_datetime` parse the selected
fields.  The model covers plain decimal numerals (optionally signed, with
an optional fractional part) and `YYYY-MM-DD` dates, the forms the
analysed documents contain. -/

/-- Accumulating decimal parser over digit characters. -/
def parseNatAux (acc : ℕ) : List Char → Option ℕ
  | [] => some acc
  | c :: cs => if isDigitC c then parseNatAux (acc * 10 + digitVal c) cs else none

/-- Parse a nonempty all-digit numeral. -/
def parseNatQ (cs : List Char) : Option ℕ :=
  match cs with
  | [] => none
  | _ :: _ => parseNatAux 0 cs

/-- Parse an unsigned decimal numeral with an optional fractional part:
the numeral `a.b` with `k` fractional digits denotes the rational
`(a * 10^k + b) / 10^k`, written in the kernel-reducible `Rat.divInt`
form (`parseUVal_frac` below restates it as `a + b / 10^k`). -/
def parseUVal (cs : List Char) : Option ℚ :=
  match splitOnChar '.' cs with
  | [a] => (parseNatQ a).map (fun n => Rat.divInt n 1)
  | [a, b] =>
    match parseNatQ a, parseNatQ b with
    | some i, some f =>
      some (Rat.divInt (i * 10 ^ b.length + f) (10 ^ b.length))
    | _, _ => none
  | _ => none

/-- Parse a decimal numeral with an optional leading minus sign; embeds
the numeric conversion applied to the `CO2` column. -/
def parseVal (cs : List Char) : Option ℚ :=
  match cs with
  | '-' :: rest => (parseUVal rest).map (fun q => -q)
  | _ => parseUVal cs

/-- Parse a `YYYY-MM-DD` date, the format of the `Date` column; embeds
`pd.to_datetime` on that column.  Calendar validity of the components is
not re-checked, as no analysed property depends on it. -/
def parseDateQ (cs : List Char) : Option Date :=
  match splitOnChar '-' cs with
  | [a, b, c] =>
    match parseNatQ a, parseNatQ b, parseNatQ c with
    | some yy, some mm, some dd => some ⟨yy, mm, dd⟩
    | _, _, _ => none
  | _ => none

/-! ## Preamble location (source lines 37-42)

The source scans `response.text.splitlines()` for the first line that
contains the quoted token `"Date"`; if none does, `data_start_line`
stays `0`. -/

/-- First index satisfying a predicate, if any. -/
def firstIdx (p : α → Bool) : List α → Option ℕ
  | [] => none
  | x :: xs => if p x then some 0 else (firstIdx p xs).map (· + 1)

/-- The boundary marker searched for by the loop at lines 39-42: the
literal `"Date"` including its double quotes. -/
def markerChars : List Char := ['"', 'D', 'a', 't', 'e', '"']

/-- Does a line contain the `"Date"` marker (`'"Date"' in line`)? -/
def containsMarker (l : String) : Bool := containsSeq markerChars l.data

/-- `PreambleLocator.locate`: index of the first line containing the
marker, and `0` when no line does (lines 38-42). -/
def locate (lines : List String) : ℕ := (firstIdx containsMarker lines).getD 0

/-! ## Schema normalisation and filtering (source lines 44-62) -/

/-- Errors that escape the `try` block of `load_public_data` unhandled:
`schema` for the `KeyError` raised by the `Date`/`CO2` column selection
(line 50), `parse` for parser and conversion errors raised by
`pd.read_csv` / `pd.to_datetime` / `pd.to_numeric`. -/
inductive LoadErr where
  | schema
  | parse
deriving DecidableEq, Repr

/-- Column-name cleaning of line 49: `col.strip().replace('"', '')`. -/
def cleanCol (cs : List Char) : List Char :=
  (trimChars cs).filter (fun c => c ≠ '"')

/-- The missing-data sentinel constant of line 54: the float literal
`-99.99`, written as `-9999/100` in the kernel-reducible `Rat.divInt`
form (`sentinel_eq` below equates it with the decimal literal). -/
def sentinel : ℚ := Rat.divInt (-9999) 100

/-- Lines 54 and 62: drop rows whose value equals the sentinel `-99.99`,
then drop rows whose date is on or after the reference `today`
(`datetime.now(timezone.utc).date()`, threaded here as a parameter). -/
def sentinelFutureFilter (today : Date) (t : List Row) : List Row :=
  (t.filter (fun r => r.value != sentinel)).filter
    (fun r => dateKey r.date < dateKey today)

/-- Parse one data row: split on commas and read the `Date` and `CO2`
fields at the header positions `di` and `ci`.  A row with more fields
than the header makes `pd.read_csv` raise; a selected field that is
missing or unreadable makes the subsequent conversions fail.  (pandas
turns a missing trailing field into `NaN`/`NaT` instead; no analysed
document has such rows, and the model folds that case into `parse`.) -/
def parseRow (ncols di ci : ℕ) (row : String) : Except LoadErr Row :=
  let fields := splitOnChar ',' row.data
  if ncols < fields.length then .error .parse
  else
    match parseDateQ (trimChars (fields.getD di [])),
        parseVal (trimChars (fields.getD ci [])) with
    | some d, some v => .ok ⟨d, v⟩
    | _, _ => .error .parse

/-- Normalisation once the header line is identified: clean the column
names, reject any data row with more fields than the header (pandas
raises a parser error there), select the `Date` and `CO2` columns (a
`KeyError`, i.e. `schema`, when either is absent), parse the rows, and
apply the sentinel and future-date filters.  (In the source the sentinel
comparison precedes the datetime conversion; on documents whose selected
fields all parse — the only ones any analysed property touches — the two
orders coincide.) -/
def normalizeWithHeader (header : String) (rawRows : List String)
    (today : Date) : Except LoadErr (List Row) :=
  let cols := (splitOnChar ',' header.data).map cleanCol
  if rawRows.any (fun row => cols.length < (splitOnChar ',' row.data).length)
  then .error .parse
  else
    match firstIdx (fun c => c = ('D' :: ['a', 't', 'e'])) cols,
        firstIdx (fun c => c = ('C' :: ['O', '2'])) cols with
    | some di, some ci =>
      match rawRows.mapM (parseRow cols.length di ci) with
      | .error e => .error e
      | .ok rows => .ok (sentinelFutureFilter today rows)
    | _, _ => .error .schema

/-- `pd.read_csv` on the retained block: the first non-blank line is the
header, the rest are data rows; an empty block raises (`EmptyDataError`,
folded into `parse`). -/
def normalizeContent (content : List String) (today : Date) :
    Except LoadErr (List Row) :=
  match content with
  | [] => .error .parse
  | header :: rawRows => normalizeWithHeader header rawRows today

/-- Lines 44-62 of `load_public_data` after a successful fetch: keep the
lines from the located boundary on (line 45), drop blank lines as
`pd.read_csv` does, and normalise. -/
def normalizePublic (lines : List String) (today : Date) :
    Except LoadErr (List Row) :=
  normalizeContent ((lines.drop (locate lines)).filter (fun l => l.data ≠ []))
    today

/-! ## Fallback series and the top-level loader (lines 29-73) -/

/-- Date of the `i`-th month of `pd.date_range('1958-03-01', '2024-01-01',
freq='MS')` (line 69). -/
def fallbackDate (i : ℕ) : Date :=
  let mo := 1958 * 12 + 2 + i
  ⟨mo / 12, mo % 12 + 1, 1⟩

/-- The `i`-th synthetic fallback row: value
`315.71 + 0.005 * i**2 + 2 * (i % 12)` (line 70). -/
def fallbackRow (i : ℕ) : Row :=
  ⟨fallbackDate i, 315.71 + 0.005 * (i : ℚ) ^ 2 + 2 * ((i % 12 : ℕ) : ℚ)⟩

/-- The deterministic synthetic fallback table of lines 69-72: 791
monthly rows from 1958-03-01 to 2024-01-01 inclusive. -/
def fallbackTable : List Row := (List.range 791).map fallbackRow

/-- The error descriptor built at line 67 (its exact wording plays no
role; only its presence does). -/
def fetchErrMsg : String := "fetch failed"

/-- `load_public_data` (lines 29-73).  The fetch outcome is passed in as
an `Except`: `.error` stands for a `requests` failure (non-success HTTP
status via `raise_for_status`, or a network error), which the handler at
line 66 converts into the fallback table plus the error descriptor.  On
a successful fetch the normalisation runs inside the `try` block, but
its own failures are *not* `requests.exceptions.RequestException`s, so
they escape as the `.error` of the outer `Except`. -/
def loadPublicData (fetch : Except Unit (List String)) (today : Date) :
    Except LoadErr (List Row × Option String) :=
  match fetch with
  | .error _ => .ok (fallbackTable, some fetchErrMsg)
  | .ok lines =>
    match normalizePublic lines today with
    | .ok t => .ok (t, none)
    | .error e => .error e

/-! ## Static embedded dataset (source lines 156-192) -/

/-- A row of the user table: `date`, `value` (temperature anomaly) and
`group` (CO2 concentration), the renaming of line 185. -/
structure URow where
  date : Date
  value : ℚ
  group : ℚ
deriving DecidableEq, Repr

/-- The embedded literal dataset of lines 159-183: 23 yearly rows
`(year, temp_anomaly, co2_concentration)`. -/
def userRaw : List (ℕ × ℚ × ℚ) :=
  [(2001, 0.54, 370.57), (2002, 0.63, 372.45), (2003, 0.62, 375.04),
   (2004, 0.54, 376.82), (2005, 0.68, 378.92), (2006, 0.64, 381.08),
   (2007, 0.66, 382.72), (2008, 0.54, 384.99), (2009, 0.66, 386.37),
   (2010, 0.72, 388.57), (2011, 0.61, 390.52), (2012, 0.65, 392.52),
   (2013, 0.68, 395.27), (2014, 0.74, 397.14), (2015, 0.9, 399.99),
   (2016, 1.02, 403.3), (2017, 0.93, 405.5), (2018, 0.85, 407.4),
   (2019, 0.98, 409.8), (2020, 1.02, 412.5), (2021, 0.85, 414.7),
   (2022, 0.86, 417.2), (2023, 1.18, 419.3)]

/-- `pd.to_datetime(df['date'], format='%Y')` of line 186: a bare year
becomes January 1st of that year. -/
def yearDate (y : ℕ) : Date := ⟨y, 1, 1⟩

/-- `load_user_data` (lines 157-192): parse the embedded block, rename
the columns, synthesise the dates, and drop rows whose year is not
strictly before the reference year (`datetime.now(timezone.utc).year`,
threaded here through the reference `today`). -/
def loadUserData (today : Date) : List URow :=
  (userRaw.map (fun p => URow.mk (yearDate p.1) p.2.1 p.2.2)).filter
    (fun r => r.date.y < today.y)

/-! ## Smoother

`create_public_data_dashboard` (lines 104-106) adds a `smoothed` column
with `scipy.signal.savgol_filter(values, window_length=11, polyorder=2)`
only when the series is longer than the window.  The filter itself lives
in `scipy`, outside this repository. -/

/-- Determinant of a square matrix given as a list of rows, by Laplace
expansion along the first row. -/
def detL : List (List ℚ) → ℚ
  | [] => 1
  | r :: rs =>
    ((List.range r.length).zip r).foldl
      (fun acc p =>
        acc + (-1 : ℚ) ^ p.1 * p.2 * detL (rs.map (fun row => row.eraseIdx p.1)))
      0
termination_by l => l.length
decreasing_by simp [Nat.lt_succ_self]

/-- Replace column `j` of a matrix by the vector `b`. -/
def replaceCol (j : ℕ) (b : List ℚ) (rows : List (List ℚ)) :
    List (List ℚ) :=
  (rows.zip b).map (fun p => p.1.set j p.2)

/-- Solve the linear system given by `rows * x = b` by Cramer's rule;
`none` when the matrix is singular. -/
def cramerSolve (rows : List (List ℚ)) (b : List ℚ) : Option (List ℚ) :=
  let dA := detL rows
  if dA = 0 then none
  else some ((List.range rows.length).map
    (fun j => detL (replaceCol j b rows) / dA))

/-- Normal-equation matrix `Σ x^(a+b)` of a degree-`d` least-squares fit
through `pts`. -/
def normalMat (pts : List (ℚ × ℚ)) (d : ℕ) : List (List ℚ) :=
  (List.range (d + 1)).map
    (fun a => (List.range (d + 1)).map
      (fun b => (pts.map (fun p => p.1 ^ (a + b))).sum))

/-- Normal-equation right-hand side `Σ x^a * y`. -/
def normalRhs (pts : List (ℚ × ℚ)) (d : ℕ) : List ℚ :=
  (List.range (d + 1)).map (fun a => (pts.map (fun p => p.1 ^ a * p.2)).sum)

/-- Least-squares polynomial coefficients of degree `d` through `pts`,
via the normal equations.  For `d` below the number of distinct sample
positions the system is nonsingular; the singular fallback is
unreachable for the valid parameters the callers use. -/
def polyfit (pts : List (ℚ × ℚ)) (d : ℕ) : List ℚ :=
  (cramerSolve (normalMat pts d) (normalRhs pts d)).getD
    (List.replicate (d + 1) 0)

/-- Evaluate a coefficient list at `x`. -/
def polyEval (cs : List ℚ) (x : ℚ) : ℚ :=
  ((List.range cs.length).zip cs).foldl
    (fun acc p => acc + p.2 * x ^ p.1) 0

/-- Start of the length-`w` fit window for output index `i` in a series
of length `n`: centred in the interior, pinned to the first/last full
window near the boundaries (the `mode='interp'` edge convention: the
boundary window's polynomial is evaluated at the edge points). -/
def windowStart (n w i : ℕ) : ℕ :=
  let half := w / 2
  if i < half then 0 else if n ≤ i + half then n - w else i - half

/-- Modelled from the spec: the Savitzky-Golay smoothing computation of
`scipy.signal.savgol_filter`, which is an external library and not part
of this repository's sources.  Per §4.5, each output point is the value
at its own position of the least-squares polynomial of degree `d` fitted
over the sliding length-`w` window, with polynomial extrapolation from
the boundary windows at the edges. -/
def savgolCore (s : List ℚ) (w d : ℕ) : List ℚ :=
  (List.range s.length).map (fun i =>
    let st := windowStart s.length w i
    let pts := (List.range w).map
      (fun j => (((st + j : ℕ) : ℚ), s.getD (st + j) 0))
    polyEval (polyfit pts d) (i : ℚ))

/-- The error of §4.5 for a smoother invoked on an undersized series. -/
inductive SmoothErr where
  | precondition
deriving DecidableEq, Repr

/-- Modelled from the spec: the `Smoother` contract of §4.5 — same
length as the input, precondition `len(series) > window`, and a
`PreconditionError` when the precondition is violated. -/
def smooth (s : List ℚ) (w d : ℕ) : Except SmoothErr (List ℚ) :=
  if s.length ≤ w then .error .precondition else .ok (savgolCore s w d)

/-- Lines 104-106: the dashboard adds the `smoothed` column only when
smoothing is requested and the (filtered) series is strictly longer
than the window `11`; otherwise no column is added. -/
def addSmoothedColumn (useSmoothing : Bool) (t : List Row) :
    Option (List ℚ) :=
  if useSmoothing && decide (11 < t.length)
  then some (savgolCore (t.map Row.value) 11 2)
  else none

/-! ## Export and display rendering (source lines 143-151)

`st.dataframe(filtered_df.style.format(...))` formats the displayed
table with `'{:.2f}'`, while the download button serialises
`filtered_df.to_csv(index=False)` — full-precision values and
`YYYY-MM-DD` dates. -/

/-- Digit characters of `n`, most significant first, with explicit fuel
(`n + 1` always suffices). -/
def natDigits : ℕ → ℕ → List Char
  | 0, _ => []
  | f + 1, n =>
    if n < 10 then [digitChar n]
    else natDigits f (n / 10) ++ [digitChar (n % 10)]

/-- Decimal numeral of a natural number. -/
def renderNat (n : ℕ) : List Char := natDigits (n + 1) n

/-- Left-pad the numeral of `m` with zeros to `k` digits (fractional
part of a fixed-point decimal). -/
def padDigits (k m : ℕ) : List Char :=
  List.replicate (k - (renderNat m).length) '0' ++ renderNat m

/-- Render the unsigned fixed-point decimal `m / 10^k` with exactly `k`
fractional digits. -/
def renderDec (m k : ℕ) : List Char :=
  renderNat (m / 10 ^ k) ++ '.' :: padDigits k (m % 10 ^ k)

/-- Smallest exponent `k ≤ 17` with `q * 10^k` integral, i.e. with
`q.den` dividing `10^k` (all values this development renders have one),
defaulting to `17`.  The divisibility is written as a remainder test on
the canonical denominator so that it evaluates on `ℕ`. -/
def decExp (q : ℚ) : ℕ :=
  ((List.range 18).find? (fun k => 10 ^ k % q.den == 0)).getD 17

/-- The integer `q * 10^k` for `q.den ∣ 10^k`, computed on the canonical
numerator/denominator pair. -/
def scaleNum (q : ℚ) (k : ℕ) : ℤ := q.num * ((10 ^ k / q.den : ℕ) : ℤ)

/-- Shortest-decimal rendering of a rational, as `repr`/`to_csv` print
the float values of the working series (`421.0` keeps one fractional
digit, like Python float repr).  Values without a terminating decimal
expansion of at most 17 digits are outside the export model's domain
(float64 values printed by `repr` always have one). -/
def renderValue (q : ℚ) : List Char :=
  let k := decExp q
  let n : ℤ := scaleNum q k
  let digits :=
    if k = 0 then renderNat n.natAbs ++ ['.', '0'] else renderDec n.natAbs k
  if n < 0 then '-' :: digits else digits

/-- Two-digit zero-padded numeral, for months and days. -/
def pad2 (n : ℕ) : List Char :=
  if n < 10 then '0' :: renderNat n else renderNat n

/-- `YYYY-MM-DD` rendering of a date, as `to_csv` prints a midnight
`datetime64` column. -/
def renderDate (a : Date) : List Char :=
  renderNat a.y ++ '-' :: (pad2 a.m ++ '-' :: pad2 a.d)

/-- One exported CSV data line: date, comma, value. -/
def renderRow (r : Row) : List Char :=
  renderDate r.date ++ ',' :: renderValue r.value

/-- `filtered_df.to_csv(index=False)` at line 145, as the list of lines
of the byte stream: the canonical header followed by one full-precision
line per row. -/
def exportLines (t : List Row) : List String :=
  "date,value" :: t.map (fun r => String.mk (renderRow r))

/-- Python `'{:.2f}'.format(v)`: round to two fractional digits and
render with exactly two.  `round (q * 100) = ⌊q * 100 + 1/2⌋` is written
as a floor division on the canonical numerator/denominator pair so that
it evaluates on `ℤ` (`format2f_round` below equates the two).  (CPython
rounds the underlying binary float half to even; no value analysed here
sits on a half-way point, where the conventions could differ.) -/
def format2f (q : ℚ) : List Char :=
  let n : ℤ := (200 * q.num + (q.den : ℤ)).fdiv (2 * (q.den : ℤ))
  let digits := renderNat (n.natAbs / 100) ++ '.' :: padDigits 2 (n.natAbs % 100)
  if n < 0 then '-' :: digits else digits

/-- The on-screen table of line 143: the value column as formatted by
`style.format('{:.2f}')`. -/
def displayValueColumn (t : List Row) : List String :=
  t.map (fun r => String.mk (format2f r.value))

/-- The export as the specification's words describe it (§6: "numeric
fields rounded to 2 decimal places for display/export"): like
`exportLines`, but with every numeric field formatted to two decimals.
Stated for comparison with the code's `exportLines`. -/
def exportLinesSpec (t : List Row) : List String :=
  "date,value" :: t.map
    (fun r => String.mk (renderDate r.date ++ ',' :: format2f r.value))

/-! ## Properties of the preamble locator -/

theorem firstIdx_eq_none {α : Type} (p : α → Bool) (l : List α) :
    firstIdx p l = none ↔ ∀ x ∈ l, p x = false := by
  induction l with
  | nil => simp [firstIdx]
  | cons x xs ih =>
    by_cases h : p x
    · simp [firstIdx, h]
    · simp [firstIdx, h, ih]

theorem firstIdx_eq_some {α : Type} (p : α → Bool) (l : List α) (i : ℕ)
    (hi : i < l.length) (hp : p (l.get ⟨i, hi⟩) = true)
    (hfirst : ∀ j (hj : j < l.length), j < i → p (l.get ⟨j, hj⟩) = false) :
    firstIdx p l = some i := by
  induction l generalizing i with
  | nil => simp at hi
  | cons x xs ih =>
    cases i with
    | zero =>
      simp only [List.get] at hp
      simp [firstIdx, hp]
    | succ n =>
      have hx : p x = false := by
        have := hfirst 0 (by simp) (Nat.succ_pos n)
        simpa using this
      have hn : n < xs.length := by simpa using hi
      have hpn : p (xs.get ⟨n, hn⟩) = true := by simpa using hp
      have hfn : ∀ j (hj : j < xs.length), j < n → p (xs.get ⟨j, hj⟩) = false := by
        intro j hj hlt
        have := hfirst (j + 1) (by simpa using hj) (by omega)
        simpa using this
      simp [firstIdx, hx, ih n hn hpn hfn]

/-- The sentinel constant is the decimal literal `-99.99`. -/
theorem sentinel_eq : sentinel = -99.99 := by
  norm_num [sentinel, Rat.divInt_eq_div]

/-- Claim C1: every row surviving the public-data filtering step (lines
54 and 62) has a value different from the `-99.99` sentinel and a date
strictly before the reference `today` evaluated in UTC. -/
theorem C1_filter_output_clean (t : List Row) (today : Date) (r : Row)
    (h : r ∈ sentinelFutureFilter today t) :
    r.value ≠ -99.99 ∧ dateKey r.date < dateKey today := by
  unfold sentinelFutureFilter at h
  simp only [List.mem_filter, bne_iff_ne, decide_eq_true_eq] at h
  exact ⟨sentinel_eq ▸ h.1.2, h.2⟩

/-- Concrete three-row table exercising both filters of claim C1 (one
sentinel row, one clean past row, one future-dated row). -/
def c1Table : List Row :=
  [⟨⟨2020, 1, 1⟩, Rat.divInt (-9999) 100⟩,
   ⟨⟨2020, 2, 1⟩, Rat.divInt 4201 10⟩,
   ⟨⟨2030, 1, 1⟩, Rat.divInt 400 1⟩]

theorem C1_witness :
    (⟨⟨2020, 2, 1⟩, Rat.divInt 4201 10⟩ : Row) ∈
      sentinelFutureFilter ⟨2023, 6, 1⟩ c1Table ∧
    (Rat.divInt 4201 10 ≠ -99.99 ∧
      dateKey ⟨2020, 2, 1⟩ < dateKey ⟨2023, 6, 1⟩) :=
  have hmem : (⟨⟨2020, 2, 1⟩, Rat.divInt 4201 10⟩ : Row) ∈
      sentinelFutureFilter ⟨2023, 6, 1⟩ c1Table := by
    rw [show sentinelFutureFilter ⟨2023, 6, 1⟩ c1Table =
      [⟨⟨2020, 2, 1⟩, Rat.divInt 4201 10⟩] from by decide]
    exact List.mem_singleton.mpr rfl
  ⟨hmem, C1_filter_output_clean c1Table ⟨2023, 6, 1⟩ _ hmem⟩

/-- Claim C2: the preamble locator returns the index of the first line
containing the boundary marker, and returns index `0` when no line
contains it (the whole text is then treated as data — a silent degrade,
not a failure). -/
theorem C2_locate_boundary (lines : List String) :
    ((∀ l ∈ lines, containsMarker l = false) → locate lines = 0) ∧
    (∀ i (hi : i < lines.length),
      containsMarker (lines.get ⟨i, hi⟩) = true →
      (∀ j (hj : j < lines.length), j < i →
        containsMarker (lines.get ⟨j, hj⟩) = false) →
      locate lines = i) := by
  constructor
  · intro h
    unfold locate
    rw [(firstIdx_eq_none containsMarker lines).mpr h]
    rfl
  · intro i hi hp hfirst
    unfold locate
    rw [firstIdx_eq_some containsMarker lines i hi hp hfirst]
    rfl

theorem C2_witness :
    ((∀ l ∈ (["% comment", "junk"] : List String), containsMarker l = false) ∧
      locate ["% comment", "junk"] = 0) ∧
    (containsMarker ((["junk", "\"Date\",\"CO2\"", "2020-01-01,413.4"] :
        List String).get ⟨1, by decide⟩) = true ∧
      locate ["junk", "\"Date\",\"CO2\"", "2020-01-01,413.4"] = 1) :=
  ⟨⟨by decide, (C2_locate_boundary _).1 (by decide)⟩,
   ⟨by decide,
    (C2_locate_boundary _).2 1 (by decide) (by decide) (by decide)⟩⟩

/-! ## Fallback path and static dataset -/

/-- Claim C6: on a fetch failure (non-success HTTP status or network
error), `load_public_data` returns the non-empty deterministic synthetic
fallback table, whose first row is dated 1958-03-01, together with an
error descriptor; no exception escapes (the result is an `ok`). -/
theorem C6_fetch_failure_fallback (today : Date) :
    loadPublicData (Except.error ()) today =
      Except.ok (fallbackTable, some fetchErrMsg) ∧
    fallbackTable ≠ [] ∧
    fallbackTable.head? = some ⟨⟨1958, 3, 1⟩, 315.71⟩ := by
  refine ⟨rfl, ?_, ?_⟩
  · simp [fallbackTable, List.map_eq_nil_iff, List.range_eq_nil]
  · rw [fallbackTable, show (791 : ℕ) = 790 + 1 from rfl,
      List.range_succ_eq_map]
    simp only [List.map_cons, List.head?_cons, Option.some.injEq]
    show fallbackRow 0 = _
    unfold fallbackRow fallbackDate
    norm_num

/-- Claim C8: with reference "today" 2023-06-01, the static embedded
dataset loader returns exactly the 22 rows for the years 2001-2022,
excluding the year-2023 row. -/
theorem C8_static_loader_cutoff :
    loadUserData ⟨2023, 6, 1⟩ =
      (userRaw.take 22).map (fun p => URow.mk (yearDate p.1) p.2.1 p.2.2) ∧
    (loadUserData ⟨2023, 6, 1⟩).length = 22 ∧
    (loadUserData ⟨2023, 6, 1⟩).map (fun r => r.date.y) =
      [2001, 2002, 2003, 2004, 2005, 2006, 2007, 2008, 2009, 2010, 2011,
       2012, 2013, 2014, 2015, 2016, 2017, 2018, 2019, 2020, 2021, 2022] :=
  ⟨rfl, rfl, rfl⟩

/-- Claim C10: the fallback table is returned without passing through
the sentinel or future-date filter, and for every reference date before
2024-01-01 it contains a row dated on or after the reference date — the
canonical-record invariant `date < today` fails on fallback output. -/
theorem C10_fallback_bypasses_filters (today : Date)
    (h : dateKey today < dateKey ⟨2024, 1, 1⟩) :
    loadPublicData (Except.error ()) today =
      Except.ok (fallbackTable, some fetchErrMsg) ∧
    ∃ r ∈ fallbackTable, dateKey today ≤ dateKey r.date := by
  refine ⟨rfl, ⟨fallbackRow 790, ?_, ?_⟩⟩
  · exact List.mem_map_of_mem _ (List.mem_range.mpr (by norm_num))
  · have h2 : dateKey (fallbackRow 790).date = dateKey ⟨2024, 1, 1⟩ := by
      decide
    rw [h2]
    exact Nat.le_of_lt h

theorem C10_witness :
    dateKey ⟨2023, 6, 1⟩ < dateKey ⟨2024, 1, 1⟩ ∧
    (loadPublicData (Except.error ()) ⟨2023, 6, 1⟩ =
      Except.ok (fallbackTable, some fetchErrMsg) ∧
    ∃ r ∈ fallbackTable, dateKey ⟨2023, 6, 1⟩ ≤ dateKey r.date) :=
  ⟨by decide, C10_fallback_bypasses_filters ⟨2023, 6, 1⟩ (by decide)⟩

/-! ## Smoother contract -/

/-- Claim C7: a smoother invocation on a series longer than the window
succeeds and preserves the length; on a series not longer than the
window it raises `PreconditionError` instead of silently truncating; and
the dashboard adds the `smoothed` column only when the series length
exceeds the window `11`. -/
theorem C7_smoother_contract (s : List ℚ) (w d : ℕ) (u : Bool)
    (t : List Row) :
    (w < s.length →
      smooth s w d = Except.ok (savgolCore s w d) ∧
      (savgolCore s w d).length = s.length) ∧
    (s.length ≤ w → smooth s w d = Except.error SmoothErr.precondition) ∧
    (t.length ≤ 11 → addSmoothedColumn u t = none) := by
  refine ⟨fun h => ⟨?_, ?_⟩, fun h => ?_, fun h => ?_⟩
  · rw [smooth, if_neg (by omega)]
  · simp [savgolCore]
  · rw [smooth, if_pos h]
  · have hf : ¬ (11 < t.length) := by omega
    simp [addSmoothedColumn, hf]

/-- Twelve-point series exercising the success branch of claim C7. -/
def c7Series : List ℚ := (List.range 12).map (fun i => Rat.divInt i 1)

theorem C7_witness :
    (11 < c7Series.length ∧
      (smooth c7Series 11 2 = Except.ok (savgolCore c7Series 11 2) ∧
        (savgolCore c7Series 11 2).length = c7Series.length)) ∧
    (([1, 2, 3] : List ℚ).length ≤ 11 ∧
      smooth [1, 2, 3] 11 2 = Except.error SmoothErr.precondition) ∧
    (([] : List Row).length ≤ 11 ∧ addSmoothedColumn true [] = none) :=
  ⟨⟨by decide, (C7_smoother_contract c7Series 11 2 true []).1 (by decide)⟩,
   ⟨by decide, (C7_smoother_contract [1, 2, 3] 11 2 true []).2.1 (by decide)⟩,
   ⟨by decide, (C7_smoother_contract [] 11 2 true []).2.2 (by decide)⟩⟩

/-! ## Layout support and error propagation (claims C3 and C5) -/

instance {ε α : Type} [DecidableEq ε] [DecidableEq α] :
    DecidableEq (Except ε α) := fun a b =>
  match a, b with
  | .ok x, .ok y =>
    if h : x = y then isTrue (by rw [h]) else isFalse (by simp [h])
  | .error x, .error y =>
    if h : x = y then isTrue (by rw [h]) else isFalse (by simp [h])
  | .ok _, .error _ => isFalse (by simp)
  | .error _, .ok _ => isFalse (by simp)

/-- Scenario A input: positional whitespace-delimited text with a
five-line quoted-comment preamble, a sentinel row for 2020-01 and a
valid row for 2020-02. -/
def positionalLines : List String :=
  ["\" USE OF NOAA GML DATA\"",
   "\"\"",
   "\" Mauna Loa Observatory\"",
   "\" CO2 concentrations in parts per million\"",
   "\"\"",
   "2020 1 43831 2020.0411 -99.99 -99.99 -99.99 -99.99 -99.99 -99.99",
   "2020 2 43862 2020.1257 420.10 420.05 413.50 413.45 420.10 420.05"]

/-- Counterexample to claim C3: on the Scenario A positional-layout
input the pipeline does not produce the one-row table with date
2020-02-01 and value 420.10. -/
theorem C3_cex :
    loadPublicData (Except.ok positionalLines) ⟨2023, 6, 1⟩ ≠
      Except.ok ([⟨⟨2020, 2, 1⟩, Rat.divInt 4201 10⟩], none) := by
  decide

/-- Claim C3 amended: the normaliser supports only the labeled layout.
On positional-layout input no line carries the `"Date"` marker, the text
is parsed from line 0 as comma-delimited, the `Date`/`CO2` column
selection fails, and the resulting schema error escapes
`load_public_data` uncaught instead of yielding any table. -/
theorem C3_positional_unsupported :
    loadPublicData (Except.ok positionalLines) ⟨2023, 6, 1⟩ =
      Except.error LoadErr.schema := by
  decide

/-- A document that parses as a well-formed table but carries no
recognizable date-bearing column layout. -/
def headerlessLines : List String := ["A,B", "1,2"]

/-- Counterexample to claim C5: on a parseable document with no
`Date`/`CO2` columns, `load_public_data` does not funnel the schema
failure into the fallback path — the error escapes to the caller, so an
unhandled error does escape the pipeline. -/
theorem C5_cex :
    loadPublicData (Except.ok headerlessLines) ⟨2023, 6, 1⟩ =
      Except.error LoadErr.schema := by
  decide

/-- Claim C5 amended: a schema (or parse) failure on a successfully
fetched document propagates out of `load_public_data` unchanged — only
fetch failures (`requests.exceptions.RequestException`) are caught and
converted into the fallback table with an error descriptor. -/
theorem C5_schema_error_escapes (lines : List String) (today : Date)
    (e : LoadErr) (h : normalizePublic lines today = Except.error e) :
    loadPublicData (Except.ok lines) today = Except.error e ∧
    loadPublicData (Except.error ()) today =
      Except.ok (fallbackTable, some fetchErrMsg) := by
  refine ⟨?_, rfl⟩
  simp [loadPublicData, h]

theorem C5_witness :
    normalizePublic headerlessLines ⟨2023, 6, 1⟩ =
      Except.error LoadErr.schema ∧
    (loadPublicData (Except.ok headerlessLines) ⟨2023, 6, 1⟩ =
        Except.error LoadErr.schema ∧
      loadPublicData (Except.error ()) ⟨2023, 6, 1⟩ =
        Except.ok (fallbackTable, some fetchErrMsg)) :=
  ⟨by decide, C5_schema_error_escapes headerlessLines ⟨2023, 6, 1⟩
    LoadErr.schema (by decide)⟩

/-- Sanity anchor for the supported labeled layout (Scenario B of the
specification): a preamble line, a `"Date","CO2"` header and one row
normalise to the expected single-row table. -/
theorem normalizePublic_labeled_example :
    normalizePublic
      ["junk preamble", "\"Date\",\"CO2\"", "2023-05-15,421.80"]
      ⟨2023, 6, 1⟩ =
      Except.ok [⟨⟨2023, 5, 15⟩, Rat.divInt 4218 10⟩] := by
  decide

/-! ## Character classes of the rendered export

The round-trip analysis of claim C4 needs two structural facts about
every line `to_csv` produces: no line contains a double quote (so the
`"Date"` marker is never found), and every data line contains exactly
one comma (so no row has more fields than the header). -/

theorem splitOnChar_ne_nil (sep : Char) (l : List Char) :
    splitOnChar sep l ≠ [] := by
  cases l with
  | nil => simp [splitOnChar]
  | cons c cs =>
    unfold splitOnChar
    by_cases h : c = sep
    · simp [h]
    · simp only [h, if_false]
      cases splitOnChar sep cs <;> simp

theorem splitOnChar_length (sep : Char) (l : List Char) :
    (splitOnChar sep l).length = l.count sep + 1 := by
  induction l with
  | nil => simp [splitOnChar]
  | cons c cs ih =>
    unfold splitOnChar
    by_cases h : c = sep
    · simp [h, List.count_cons, ih]
    · rcases hs : splitOnChar sep cs with _ | ⟨g, gs⟩
      · exact absurd hs (splitOnChar_ne_nil sep cs)
      · rw [hs] at ih
        simp only [h, if_false]
        simp [List.count_cons, h, ← ih]

theorem digitChar_mem (n : ℕ) : digitChar n ∈ digitList := by
  unfold digitChar List.getD
  cases h : digitList.get? (n % 10) with
  | none => simp; decide
  | some c =>
    simp only [h, Option.getD_some]
    exact List.get?_mem h

theorem natDigits_mem (f n : ℕ) : ∀ c ∈ natDigits f n, c ∈ digitList := by
  induction f generalizing n with
  | zero => simp [natDigits]
  | succ f ih =>
    intro c hc
    unfold natDigits at hc
    by_cases h : n < 10
    · simp only [h, if_true, List.mem_singleton] at hc
      exact hc ▸ digitChar_mem n
    · simp only [h, if_false, List.mem_append, List.mem_singleton] at hc
      rcases hc with hc | hc
      · exact ih _ _ hc
      · exact hc ▸ digitChar_mem _

theorem renderNat_mem (n : ℕ) : ∀ c ∈ renderNat n, c ∈ digitList :=
  natDigits_mem (n + 1) n

theorem padDigits_mem (k m : ℕ) : ∀ c ∈ padDigits k m, c ∈ digitList := by
  intro c hc
  unfold padDigits at hc
  rcases List.mem_append.mp hc with hc | hc
  · rw [List.eq_of_mem_replicate hc]; decide
  · exact renderNat_mem m c hc

/-- Characters that can occur in a rendered numeric field. -/
def valChars : List Char := digitList ++ ['-', '.']

theorem renderValue_digits_mem (k m : ℕ) :
    ∀ c ∈ (if k = 0 then renderNat m ++ ['.', '0']
      else renderNat (m / 10 ^ k) ++ '.' :: padDigits k (m % 10 ^ k)),
      c ∈ valChars := by
  intro c hc
  have hd : ∀ x ∈ digitList, x ∈ valChars := by decide
  split at hc
  · rcases List.mem_append.mp hc with h | h
    · exact hd _ (renderNat_mem _ _ h)
    · simp only [List.mem_cons, List.mem_singleton] at h
      rcases h with h | h | h
      · rw [h]; decide
      · rw [h]; decide
      · cases h
  · rcases List.mem_append.mp hc with h | h
    · exact hd _ (renderNat_mem _ _ h)
    · rcases List.mem_cons.mp h with h | h
      · rw [h]; decide
      · exact hd _ (padDigits_mem _ _ _ h)

theorem renderValue_mem (q : ℚ) : ∀ c ∈ renderValue q, c ∈ valChars := by
  intro c hc
  simp only [renderValue, renderDec] at hc
  split at hc
  · rcases List.mem_cons.mp hc with h | h
    · rw [h]; decide
    · exact renderValue_digits_mem _ _ _ h
  · exact renderValue_digits_mem _ _ _ hc

/-- Characters that can occur in a rendered date field. -/
def dateChars : List Char := digitList ++ ['-']

theorem pad2_mem (n : ℕ) : ∀ c ∈ pad2 n, c ∈ digitList := by
  intro c hc
  unfold pad2 at hc
  split at hc
  · rcases List.mem_cons.mp hc with hc | hc
    · rw [hc]; decide
    · exact renderNat_mem _ _ hc
  · exact renderNat_mem _ _ hc

theorem renderDate_mem (a : Date) : ∀ c ∈ renderDate a, c ∈ dateChars := by
  intro c hc
  have hd : ∀ x ∈ digitList, x ∈ dateChars := by decide
  unfold renderDate at hc
  rcases List.mem_append.mp hc with hc | hc
  · exact hd _ (renderNat_mem _ _ hc)
  · rcases List.mem_cons.mp hc with hc | hc
    · rw [hc]; decide
    · rcases List.mem_append.mp hc with hc | hc
      · exact hd _ (pad2_mem _ _ hc)
      · rcases List.mem_cons.mp hc with hc | hc
        · rw [hc]; decide
        · exact hd _ (pad2_mem _ _ hc)

/-- Characters that can occur in a rendered export data line. -/
def rowChars : List Char := digitList ++ ['-', '.', ',']

theorem renderRow_mem (r : Row) : ∀ c ∈ renderRow r, c ∈ rowChars := by
  intro c hc
  have h1 : ∀ x ∈ dateChars, x ∈ rowChars := by decide
  have h2 : ∀ x ∈ valChars, x ∈ rowChars := by decide
  unfold renderRow at hc
  rcases List.mem_append.mp hc with hc | hc
  · exact h1 _ (renderDate_mem r.date c hc)
  · rcases List.mem_cons.mp hc with hc | hc
    · rw [hc]; decide
    · exact h2 _ (renderValue_mem r.value c hc)

/-! ## The export cannot be re-parsed by the labeled-layout path -/

/-- A line containing the quoted `"Date"` marker contains a double
quote. -/
theorem containsSeq_quote (l : List Char)
    (h : containsSeq markerChars l = true) : '"' ∈ l := by
  induction l with
  | nil => simp [containsSeq, markerChars] at h
  | cons c cs ih =>
    unfold containsSeq at h
    simp only [Bool.or_eq_true] at h
    rcases h with h | h
    · unfold markerChars seqStarts at h
      simp only [Bool.and_eq_true, decide_eq_true_eq] at h
      exact List.mem_cons.mpr (Or.inl h.1)
    · exact List.mem_cons.mpr (Or.inr (ih h))

/-- No line of the exported CSV contains the `"Date"` marker, so the
locator treats the whole export as data. -/
theorem locate_exportLines (t : List Row) : locate (exportLines t) = 0 := by
  unfold locate
  rw [(firstIdx_eq_none containsMarker (exportLines t)).mpr ?_]
  · rfl
  intro l hl
  unfold exportLines at hl
  rcases List.mem_cons.mp hl with hl | hl
  · rw [hl]; decide
  · rcases List.mem_map.mp hl with ⟨r, _, hr⟩
    rw [← hr]
    show containsSeq markerChars (renderRow r) = false
    cases hb : containsSeq markerChars (renderRow r) with
    | false => rfl
    | true =>
      exact absurd (renderRow_mem r _ (containsSeq_quote _ hb)) (by decide)

/-- An exported data line contains exactly one comma. -/
theorem renderRow_comma_count (r : Row) : (renderRow r).count ',' = 1 := by
  have h1 : (renderDate r.date).count ',' = 0 :=
    List.count_eq_zero.mpr (fun h => absurd (renderDate_mem _ _ h) (by decide))
  have h2 : (renderValue r.value).count ',' = 0 :=
    List.count_eq_zero.mpr (fun h => absurd (renderValue_mem _ _ h) (by decide))
  unfold renderRow
  rw [List.count_append, List.count_cons]
  simp [h1, h2]

/-- An exported data line splits into exactly two comma fields. -/
theorem exportRow_fields (r : Row) :
    (splitOnChar ',' (renderRow r)).length = 2 := by
  rw [splitOnChar_length, renderRow_comma_count]

/-- Claim C4 amended: re-parsing the CSV export through the
labeled-layout normalization path always fails with a schema error —
the export's canonical lowercase header `date,value` never matches the
`Date`/`CO2` column selection — so no round-trip property holds. -/
theorem C4_export_reparse_schema_error (t : List Row) (today : Date) :
    normalizePublic (exportLines t) today = Except.error LoadErr.schema := by
  unfold normalizePublic
  rw [locate_exportLines, List.drop_zero]
  show normalizeContent
    (("date,value" :: t.map (fun r => String.mk (renderRow r))).filter
      (fun l => l.data ≠ [])) today = _
  rw [List.filter_cons_of_pos (by decide)]
  show normalizeWithHeader "date,value"
    ((t.map (fun r => String.mk (renderRow r))).filter
      (fun l => l.data ≠ [])) today = _
  have hany : ((t.map (fun r => String.mk (renderRow r))).filter
      (fun l => l.data ≠ [])).any
        (fun row =>
          ((splitOnChar ',' ("date,value").data).map cleanCol).length <
            (splitOnChar ',' row.data).length) = false := by
    rw [List.any_eq_false]
    intro x hx
    rcases List.mem_map.mp (List.mem_of_mem_filter hx) with ⟨r, _, hr⟩
    rw [← hr]
    have hf : (splitOnChar ',' (String.mk (renderRow r)).data).length = 2 :=
      exportRow_fields r
    simp [hf]
    decide
  simp only [normalizeWithHeader, hany, Bool.false_eq_true, if_false]
  rw [show firstIdx (fun c => c = ('D' :: ['a', 't', 'e']))
      ((splitOnChar ',' ("date,value").data).map cleanCol) = none from by
    decide]

/-- One-row canonical table exercising the round-trip of claim C4. -/
def c4Table : List Row := [⟨⟨2023, 5, 15⟩, Rat.divInt 4218 10⟩]

/-- Counterexample to claim C4: exporting a concrete one-row table and
re-parsing the bytes through the labeled-layout normalization path
yields a schema error, not a table equal to the original (up to any
rounding). -/
theorem C4_cex :
    normalizePublic (exportLines c4Table) ⟨2023, 6, 1⟩ =
      Except.error LoadErr.schema ∧
    normalizePublic (exportLines c4Table) ⟨2023, 6, 1⟩ ≠
      Except.ok c4Table := by
  decide

/-! ## Round-trip exactness of the export renderer

The export serialises each working value at full precision: parsing a
rendered numeric field back recovers the exact rational.  A 2-decimal
rounding at the export boundary could not have this property. -/

theorem parseNatAux_append (acc : ℕ) (xs ys : List Char) :
    parseNatAux acc (xs ++ ys) =
      (parseNatAux acc xs).bind (fun m => parseNatAux m ys) := by
  induction xs generalizing acc with
  | nil => simp [parseNatAux]
  | cons c cs ih =>
    have e1 : ∀ (a : ℕ) (ds : List Char), parseNatAux a (c :: ds) =
        if isDigitC c then parseNatAux (a * 10 + digitVal c) ds else none :=
      fun a ds => rfl
    rw [List.cons_append, e1, e1]
    by_cases h : isDigitC c
    · rw [if_pos h, if_pos h, ih]
    · rw [if_neg h, if_neg h]
      rfl

theorem digitChar_spec (n : ℕ) :
    isDigitC (digitChar n) = true ∧ digitVal (digitChar n) = n % 10 := by
  have h : n % 10 < 10 := Nat.mod_lt _ (by norm_num)
  have key : ∀ m, m < 10 →
      isDigitC (digitList.getD m '0') = true ∧
      digitVal (digitList.getD m '0') = m := by decide
  exact key _ h

theorem parseNatAux_natDigits (f : ℕ) :
    ∀ n acc, n < 10 ^ f →
      parseNatAux acc (natDigits f n) =
        some (acc * 10 ^ (natDigits f n).length + n) := by
  induction f with
  | zero =>
    intro n acc h
    have hn : n = 0 := by simpa using h
    subst hn
    simp [natDigits, parseNatAux]
  | succ f ih =>
    intro n acc h
    unfold natDigits
    by_cases h10 : n < 10
    · simp only [h10, if_true]
      unfold parseNatAux
      rw [if_pos (digitChar_spec n).1, (digitChar_spec n).2,
        Nat.mod_eq_of_lt h10]
      simp [parseNatAux]
    · simp only [h10, if_false]
      rw [parseNatAux_append]
      have hdiv : n / 10 < 10 ^ f := by
        rw [Nat.div_lt_iff_lt_mul (by norm_num : (0 : ℕ) < 10)]
        calc n < 10 ^ (f + 1) := h
          _ = 10 ^ f * 10 := by rw [pow_succ]
      rw [ih _ acc hdiv]
      simp only [Option.some_bind]
      unfold parseNatAux
      rw [if_pos (digitChar_spec (n % 10)).1, (digitChar_spec (n % 10)).2,
        Nat.mod_mod_of_dvd _ (dvd_refl 10)]
      simp only [parseNatAux, List.length_append, List.length_singleton,
        Option.some.injEq]
      have hdm := Nat.div_add_mod n 10
      rw [pow_succ]
      set L := (natDigits f (n / 10)).length
      ring_nf
      omega

theorem natDigits_ne_nil (f n : ℕ) : natDigits (f + 1) n ≠ [] := by
  unfold natDigits
  split <;> simp

theorem parseNatQ_eq_aux (cs : List Char) (h : cs ≠ []) :
    parseNatQ cs = parseNatAux 0 cs := by
  cases cs with
  | nil => exact absurd rfl h
  | cons c cs => rfl

theorem parseNatQ_renderNat (n : ℕ) : parseNatQ (renderNat n) = some n := by
  have hlt : n < 10 ^ (n + 1) :=
    lt_of_lt_of_le (Nat.lt_pow_self (by norm_num) n)
      (Nat.pow_le_pow_right (by norm_num) (Nat.le_succ n))
  rw [renderNat, parseNatQ_eq_aux _ (natDigits_ne_nil n n),
    parseNatAux_natDigits (n + 1) n 0 hlt]
  simp

theorem parseNatAux_zeros (z : ℕ) :
    parseNatAux 0 (List.replicate z '0') = some 0 := by
  induction z with
  | zero => simp [parseNatAux]
  | succ z ih =>
    rw [List.replicate_succ]
    unfold parseNatAux
    rw [if_pos (by decide)]
    have h0 : 0 * 10 + digitVal '0' = 0 := by decide
    rw [h0]
    exact ih

theorem parseNatQ_padDigits (k m : ℕ) : parseNatQ (padDigits k m) = some m := by
  unfold padDigits
  have hne : List.replicate (k - (renderNat m).length) '0' ++ renderNat m ≠ [] := by
    intro h
    exact natDigits_ne_nil m m (List.append_eq_nil.mp h).2
  rw [parseNatQ_eq_aux _ hne, parseNatAux_append, parseNatAux_zeros]
  simp only [Option.some_bind]
  have h := parseNatQ_renderNat m
  rw [renderNat, parseNatQ_eq_aux _ (natDigits_ne_nil m m)] at h
  exact h

theorem natDigits_eq_fuel (n : ℕ) :
    ∀ f g, 0 < f → 0 < g → n < 10 ^ f → n < 10 ^ g →
      natDigits f n = natDigits g n := by
  induction n using Nat.strong_induction_on with
  | _ n ih =>
    intro f g hf hg h1 h2
    rcases f with _ | f
    · omega
    rcases g with _ | g
    · omega
    unfold natDigits
    by_cases h10 : n < 10
    · simp [h10]
    · simp only [h10, if_false]
      have hd : n / 10 < n := Nat.div_lt_self (by omega) (by norm_num)
      have hf2 : 0 < f := by
        rcases Nat.eq_zero_or_pos f with hz | hp
        · subst hz; simp [pow_one] at h1; omega
        · exact hp
      have hg2 : 0 < g := by
        rcases Nat.eq_zero_or_pos g with hz | hp
        · subst hz; simp [pow_one] at h2; omega
        · exact hp
      have b1 : n / 10 < 10 ^ f := by
        rw [Nat.div_lt_iff_lt_mul (by norm_num : (0 : ℕ) < 10)]
        calc n < 10 ^ (f + 1) := h1
          _ = 10 ^ f * 10 := by rw [pow_succ]
      have b2 : n / 10 < 10 ^ g := by
        rw [Nat.div_lt_iff_lt_mul (by norm_num : (0 : ℕ) < 10)]
        calc n < 10 ^ (g + 1) := h2
          _ = 10 ^ g * 10 := by rw [pow_succ]
      rw [ih (n / 10) hd f g hf2 hg2 b1 b2]

theorem natDigits_len_le (k : ℕ) :
    ∀ n, n < 10 ^ k → (natDigits k n).length ≤ k := by
  induction k with
  | zero => intro n h; simp [natDigits]
  | succ k ih =>
    intro n h
    unfold natDigits
    by_cases h10 : n < 10
    · simp [h10]
    · simp only [h10, if_false, List.length_append, List.length_singleton]
      have b1 : n / 10 < 10 ^ k := by
        rw [Nat.div_lt_iff_lt_mul (by norm_num : (0 : ℕ) < 10)]
        calc n < 10 ^ (k + 1) := h
          _ = 10 ^ k * 10 := by rw [pow_succ]
      have := ih _ b1
      omega

theorem renderNat_length_le (n k : ℕ) (h0 : 0 < k) (h : n < 10 ^ k) :
    (renderNat n).length ≤ k := by
  have hlt : n < 10 ^ (n + 1) :=
    lt_of_lt_of_le (Nat.lt_pow_self (by norm_num) n)
      (Nat.pow_le_pow_right (by norm_num) (Nat.le_succ n))
  rw [renderNat, natDigits_eq_fuel n (n + 1) k (Nat.succ_pos n) h0 hlt h]
  exact natDigits_len_le k n h

theorem padDigits_length (k m : ℕ) (h0 : 0 < k) (h : m < 10 ^ k) :
    (padDigits k m).length = k := by
  unfold padDigits
  rw [List.length_append, List.length_replicate]
  have := renderNat_length_le m k h0 h
  omega

theorem splitOnChar_no_sep (sep : Char) (l : List Char)
    (h : ∀ c ∈ l, c ≠ sep) : splitOnChar sep l = [l] := by
  induction l with
  | nil => rfl
  | cons c cs ih =>
    unfold splitOnChar
    rw [if_neg (h c (by simp)), ih (fun x hx => h x (by simp [hx]))]

theorem splitOnChar_append_sep (sep : Char) (a b : List Char)
    (ha : ∀ c ∈ a, c ≠ sep) :
    splitOnChar sep (a ++ sep :: b) = a :: splitOnChar sep b := by
  induction a with
  | nil => simp [splitOnChar]
  | cons c cs ih =>
    rw [List.cons_append]
    conv_lhs => rw [splitOnChar]
    rw [ih (fun x hx => ha x (by simp [hx]))]
    show (if c = sep then [] :: (cs :: splitOnChar sep b)
      else match cs :: splitOnChar sep b with
        | [] => [[c]]
        | g :: gs => (c :: g) :: gs) = (c :: cs) :: splitOnChar sep b
    rw [if_neg (ha c (by simp))]

theorem parseVal_of_head_ne (c : Char) (cs : List Char) (h : c ≠ '-') :
    parseVal (c :: cs) = parseUVal (c :: cs) := by
  unfold parseVal
  split
  · rename_i rest heq
    injection heq with h1 h2
    exact absurd h1 h
  · rfl

/-- The two-field numeral `a.b` with `k` fractional digits denotes
`a + b / 10^k`. -/
theorem parseUVal_frac (i f k : ℕ) :
    (Rat.divInt ((i : ℤ) * 10 ^ k + (f : ℤ)) ((10 : ℤ) ^ k) : ℚ) =
      (i : ℚ) + (f : ℚ) / 10 ^ k := by
  rw [Rat.divInt_eq_div]
  have h10 : ((10 : ℚ) ^ k) ≠ 0 := by positivity
  push_cast
  field_simp

/-- The fixed-point numerator used by `format2f` is `round (q * 100)`. -/
theorem format2f_round (q : ℚ) :
    (200 * q.num + (q.den : ℤ)).fdiv (2 * (q.den : ℤ)) = round (q * 100) := by
  have hden : (0 : ℤ) < (q.den : ℤ) := by exact_mod_cast q.pos
  rw [round_eq, Int.fdiv_eq_ediv _ (by positivity)]
  have hq : q * 100 + 1 / 2 =
      ((200 * q.num + (q.den : ℤ) : ℤ) : ℚ) / ((2 * q.den : ℕ) : ℚ) := by
    conv_lhs => rw [← Rat.num_div_den q]
    have hd : ((q.den : ℚ)) ≠ 0 := by positivity
    push_cast
    field_simp
    ring
  rw [hq, Rat.floor_intCast_div_natCast]
  push_cast
  ring_nf

theorem decExp_dvd (q : ℚ) (h : q.den ∣ 10 ^ 17) :
    q.den ∣ 10 ^ decExp q := by
  have hpos : 0 < q.den := q.pos
  unfold decExp
  cases hf : (List.range 18).find? (fun k => 10 ^ k % q.den == 0) with
  | none =>
    exfalso
    have h17 := List.find?_eq_none.mp hf 17 (by simp)
    rw [beq_iff_eq] at h17
    exact h17 (Nat.dvd_iff_mod_eq_zero.mp h)
  | some k =>
    simp only [Option.getD_some]
    have hp := List.find?_some hf
    rw [beq_iff_eq] at hp
    exact Nat.dvd_iff_mod_eq_zero.mpr hp

theorem renderNat_no_dot (n : ℕ) : ∀ c ∈ renderNat n, c ≠ '.' := by
  intro c hc he
  exact absurd (renderNat_mem n c hc) (by rw [he]; decide)

theorem padDigits_no_dot (k m : ℕ) : ∀ c ∈ padDigits k m, c ≠ '.' := by
  intro c hc he
  exact absurd (padDigits_mem k m c hc) (by rw [he]; decide)

/-- A rendered fixed-point numeral parses back to the denoted rational. -/
theorem parseUVal_render_frac (ip fp k : ℕ) (h0 : 0 < k)
    (hfp : fp < 10 ^ k) :
    parseUVal (renderNat ip ++ '.' :: padDigits k fp) =
      some (Rat.divInt ((ip : ℤ) * 10 ^ k + (fp : ℤ)) ((10 : ℤ) ^ k)) := by
  unfold parseUVal
  rw [splitOnChar_append_sep '.' _ _ (renderNat_no_dot ip),
    splitOnChar_no_sep '.' _ (padDigits_no_dot k fp)]
  simp only [parseNatQ_renderNat, parseNatQ_padDigits,
    padDigits_length k fp h0 hfp]

/-- A rendered numeral starts with a digit, so the sign branch of
`parseVal` is not taken. -/
theorem parseVal_eq_parseUVal_renderNat (m : ℕ) (rest : List Char) :
    parseVal (renderNat m ++ rest) = parseUVal (renderNat m ++ rest) := by
  rcases hr : renderNat m with _ | ⟨c, cs⟩
  · exact absurd hr (natDigits_ne_nil m m)
  · have hcd : c ∈ digitList := renderNat_mem m c (by rw [hr]; simp)
    have hcne : c ≠ '-' := by
      intro he
      rw [he] at hcd
      exact absurd hcd (by decide)
    rw [List.cons_append, parseVal_of_head_ne c _ hcne, ← List.cons_append]

/-- Parsing a rendered value recovers the exact working value: the
export boundary loses no precision, so in particular it applies no
rounding. -/
theorem parseVal_renderValue (q : ℚ) (hq : 0 ≤ q)
    (hden : q.den ∣ 10 ^ 17) : parseVal (renderValue q) = some q := by
  have hdvd : q.den ∣ 10 ^ decExp q := decExp_dvd q hden
  have hn0 : 0 ≤ scaleNum q (decExp q) := by
    unfold scaleNum
    have h1 : 0 ≤ q.num := Rat.num_nonneg.mpr hq
    positivity
  have hscale : Rat.divInt (scaleNum q (decExp q)) ((10 : ℤ) ^ decExp q) = q := by
    unfold scaleNum
    obtain ⟨c, hc⟩ := hdvd
    have hnz : q.den ≠ 0 := q.den_nz
    have h10 : 10 ^ decExp q / q.den = c := by
      rw [hc, Nat.mul_div_cancel_left c (Nat.pos_of_ne_zero hnz)]
    rw [h10, Rat.divInt_eq_div]
    push_cast
    have hden0 : ((q.den : ℚ)) ≠ 0 := by
      exact_mod_cast hnz
    have hc0 : ((10 : ℚ) ^ decExp q) = (q.den : ℚ) * (c : ℚ) := by
      exact_mod_cast hc
    rw [hc0]
    by_cases hcz : (c : ℚ) = 0
    · exfalso
      have h1 : (10 : ℚ) ^ decExp q ≠ 0 := by positivity
      rw [hc0, hcz, mul_zero] at h1
      exact h1 rfl
    · rw [mul_div_mul_right _ _ hcz]
      exact Rat.num_div_den q
  set k := decExp q with hk
  set M := (scaleNum q k).natAbs with hM
  have hMeq : (M : ℤ) = scaleNum q k := Int.natAbs_of_nonneg hn0
  simp only [renderValue, renderDec, ← hk, ← hM]
  rw [if_neg (not_lt.mpr hn0)]
  by_cases hk0 : k = 0
  · rw [if_pos hk0]
    rw [show (['.', '0'] : List Char) = '.' :: padDigits 1 0 from by decide]
    rw [parseVal_eq_parseUVal_renderNat,
      parseUVal_render_frac M 0 1 (by norm_num) (by norm_num)]
    congr 1
    rw [← hscale, hk0]
    rw [show ((M : ℤ) * 10 ^ 1 + ((0 : ℕ) : ℤ)) = scaleNum q 0 * 10 from by
      rw [hk0] at hMeq
      rw [← hMeq]; ring]
    rw [show ((10 : ℤ) ^ 1) = 1 * 10 from by ring,
      show ((10 : ℤ) ^ 0) = 1 from by ring]
    rw [Rat.divInt_mul_right (by norm_num : (10 : ℤ) ≠ 0)]
  · rw [if_neg hk0]
    have hpos : 0 < k := Nat.pos_of_ne_zero hk0
    rw [parseVal_eq_parseUVal_renderNat,
      parseUVal_render_frac (M / 10 ^ k) (M % 10 ^ k) k hpos
        (Nat.mod_lt _ (by positivity))]
    congr 1
    rw [← hscale, ← hMeq]
    congr 1
    have hdm : M / 10 ^ k * 10 ^ k + M % 10 ^ k = M :=
      Nat.div_add_mod' M (10 ^ k)
    exact_mod_cast hdm

/-- One-row table whose value `421.873` changes under 2-decimal
rounding. -/
def c9Table : List Row := [⟨⟨2020, 2, 1⟩, Rat.divInt 421873 1000⟩]

/-- Counterexample to claim C9: the CSV export byte stream of a table
holding `421.873` carries the full-precision field `421.873`, not the
2-decimal rounding `421.87` that the specification's export format
(`exportLinesSpec`) prescribes. -/
theorem C9_cex :
    exportLines c9Table = ["date,value", "2020-02-01,421.873"] ∧
    exportLinesSpec c9Table = ["date,value", "2020-02-01,421.87"] ∧
    exportLines c9Table ≠ exportLinesSpec c9Table := by
  refine ⟨by decide, by decide, by decide⟩

/-- Claim C9 amended: the 2-decimal rounding is applied only by the
on-screen display formatting (`style.format('{:.2f}')`); the CSV export
byte stream renders the working values at full precision — parsing an
exported field back recovers the exact value, which no rounding at the
export boundary could achieve — and the pipeline's filters only select
rows, never altering the in-memory numeric series. -/
theorem C9_rounding_display_only (t : List Row) (today : Date) (r : Row)
    (v : ℚ) (hmem : r ∈ sentinelFutureFilter today t) (hv : 0 ≤ v)
    (hden : v.den ∣ 10 ^ 17) :
    r ∈ t ∧
    parseVal (renderValue v) = some v ∧
    displayValueColumn t = t.map (fun x => String.mk (format2f x.value)) := by
  refine ⟨?_, parseVal_renderValue v hv hden, rfl⟩
  unfold sentinelFutureFilter at hmem
  exact List.mem_of_mem_filter (List.mem_of_mem_filter hmem)

theorem C9_witness :
    ((⟨⟨2020, 2, 1⟩, Rat.divInt 421873 1000⟩ : Row) ∈
        sentinelFutureFilter ⟨2023, 6, 1⟩ c9Table ∧
      (0 : ℚ) ≤ Rat.divInt 421873 1000 ∧
      (Rat.divInt 421873 1000 : ℚ).den ∣ 10 ^ 17) ∧
    ((⟨⟨2020, 2, 1⟩, Rat.divInt 421873 1000⟩ : Row) ∈ c9Table ∧
      parseVal (renderValue (Rat.divInt 421873 1000)) =
        some (Rat.divInt 421873 1000) ∧
      displayValueColumn c9Table =
        c9Table.map (fun x => String.mk (format2f x.value))) :=
  have hmem : (⟨⟨2020, 2, 1⟩, Rat.divInt 421873 1000⟩ : Row) ∈
      sentinelFutureFilter ⟨2023, 6, 1⟩ c9Table := by
    rw [show sentinelFutureFilter ⟨2023, 6, 1⟩ c9Table = c9Table from by decide]
    exact List.mem_singleton.mpr rfl
  have hv : (0 : ℚ) ≤ Rat.divInt 421873 1000 := by
    rw [Rat.divInt_eq_div]
    positivity
  have hden : (Rat.divInt 421873 1000 : ℚ).den ∣ 10 ^ 17 := by
    rw [show (Rat.divInt 421873 1000 : ℚ).den = 1000 from by decide]
    norm_num
  ⟨⟨hmem, hv, hden⟩,
   C9_rounding_display_only c9Table ⟨2023, 6, 1⟩ _ _ hmem hv hden⟩

end Vips
